import Mathlib

/-!
Shallow embedding of `src/lib/rules/no-use-before-define.js` (the
`no-use-before-define` ESLint rule).  AST nodes carry a `parent`
back-reference modelled structurally (each node value holds its ancestor
chain); the JavaScript value `undefined`/absent node is the constructor
`Node.null`.  Functions whose JavaScript originals can throw a `TypeError`
by reading a property of `undefined` are embedded in `Except String`; the
error branches mark exactly the property accesses that can throw.
-/

namespace NUBD

/-- Error message standing for a JavaScript `TypeError` raised by reading a
property of `undefined`. -/
def tyErr : String := "TypeError: cannot read property of undefined"

/-- An ESTree AST node as read by the rule: a `type` tag, an inclusive
`range` pair, a `name` (identifiers), a `kind` (variable declarations),
the `init` and `right` sub-expressions, and the `parent` back-reference.
`Node.null` models the absence of a node (JavaScript `undefined`). -/
inductive Node : Type where
  | null : Node
  | mk (type : String) (range : Nat × Nat) (name : String) (kind : String)
       (init : Node) (right : Node) (parent : Node) : Node
deriving DecidableEq

/-- The node's `type` tag (the empty string on `Node.null`). -/
def Node.type : Node → String
  | .null => ""
  | .mk t _ _ _ _ _ _ => t

/-- The node's `range` pair (degenerate on `Node.null`). -/
def Node.range : Node → Nat × Nat
  | .null => (0, 0)
  | .mk _ r _ _ _ _ _ => r

/-- The node's `name` (identifiers). -/
def Node.name : Node → String
  | .null => ""
  | .mk _ _ n _ _ _ _ => n

/-- The node's `kind` (variable declarations: `var`, `let`, `const`, `type`). -/
def Node.kind : Node → String
  | .null => ""
  | .mk _ _ _ k _ _ _ => k

/-- The node's `init` sub-expression (variable declarators). -/
def Node.init : Node → Node
  | .null => .null
  | .mk _ _ _ _ i _ _ => i

/-- The node's `right` sub-expression (assignment patterns, for-in/of). -/
def Node.right : Node → Node
  | .null => .null
  | .mk _ _ _ _ _ r _ => r

/-- The node's `parent` back-reference. -/
def Node.parent : Node → Node
  | .null => .null
  | .mk _ _ _ _ _ _ p => p

/-- Whether the node is absent (JavaScript falsy check `node &&`). -/
def Node.isNull : Node → Bool
  | .null => true
  | .mk _ _ _ _ _ _ _ => false

/-- Source line 17: the anchored regular expression `SENTINEL_TYPE`, an exact
match over eight node-type strings. -/
def SENTINEL_TYPE (t : String) : Bool :=
  t == "FunctionDeclaration" || t == "FunctionExpression" ||
  t == "ClassDeclaration" || t == "ClassExpression" ||
  t == "ArrowFunctionExpression" || t == "CatchClause" ||
  t == "ImportDeclaration" || t == "ExportNamedDeclaration"

/-- Source line 18: the anchored regular expression `FOR_IN_OF_TYPE`. -/
def FOR_IN_OF_TYPE (t : String) : Bool :=
  t == "ForInStatement" || t == "ForOfStatement"

/-- The parsed policy record returned by `parseOptions` (source line 41). -/
structure Options : Type where
  functions : Bool
  classes : Bool
  «variables» : Bool
  typedefs : Bool
deriving DecidableEq

/-- The possible option values handed to `parseOptions` (after the host's
schema validation the object fields are booleans or absent; `none` models an
absent field).  `nullv` is JavaScript `null`, `other` any non-string
non-object value. -/
inductive OptInput : Type where
  | str (s : String) : OptInput
  | obj (functions classes vars typedefs : Option Bool) : OptInput
  | nullv : OptInput
  | other : OptInput
deriving DecidableEq

/-- Source lines 26-42: `parseOptions`.  A string sets `functions` to
`options !== "nofunc"`; an object (that is not `null`) sets each field to
`options.field !== false`; anything else leaves all four fields `true`. -/
def parseOptions : OptInput → Options
  | .str s => ⟨s != "nofunc", true, true, true⟩
  | .obj f c v t =>
      ⟨f != some false, c != some false, v != some false, t != some false⟩
  | .nullv => ⟨true, true, true, true⟩
  | .other => ⟨true, true, true, true⟩

/-- Source lines 181-188: the rule's `defaultOptions`, merged with the user
options by `util.applyDefault` before `parseOptions` runs. -/
def defaultOptions : List OptInput :=
  [.obj (some true) (some true) (some true) (some true)]

/-- A handle to a variable scope (the nearest function/global/module scope):
its object identity `sid` and its `type` string.  Two handles are `=` exactly
when the underlying scope objects are `===` in JavaScript. -/
structure VarScope : Type where
  sid : Nat
  type : String
deriving DecidableEq

/-- A handle to a scope object: its object identity `sid` and its
`variableScope` handle. -/
structure ScopeInfo : Type where
  sid : Nat
  variableScope : VarScope
deriving DecidableEq

/-- Source lines 48-50: `isTopLevelScope` (only ever applied to
`variableScope` handles by this rule). -/
def isTopLevelScope (scope : VarScope) : Bool :=
  scope.type == "module" || scope.type == "global"

/-- One entry of a variable's `defs` list: the definition's `type` tag and
its `parent` AST node (the declaration; `Node.null` when absent). -/
structure Def : Type where
  type : String
  parent : Node
deriving DecidableEq

/-- An `eslint-scope` variable: its `defs`, its declared `identifiers`, and
the `scope` that owns it. -/
structure Variable : Type where
  defs : List Def
  identifiers : List Node
  scope : ScopeInfo
deriving DecidableEq

/-- An `eslint-scope` reference: the `init` flag, the `resolved` variable
(`none` when unresolved), the `identifier` node and the scope `from` which
the reference occurs (field named `fromScope`: `from` is a Lean keyword). -/
structure Reference : Type where
  init : Bool
  resolved : Option Variable
  identifier : Node
  fromScope : ScopeInfo
deriving DecidableEq

/-- Source lines 58-60: `isFunction`.  Reads `v.defs[0].type`, a
`TypeError` when `defs` is empty. -/
def isFunction (v : Variable) : Except String Bool :=
  match v.defs with
  | [] => .error tyErr
  | d :: _ => .ok (d.type == "FunctionName")

/-- Source lines 69-82: `isOuterClass`. -/
def isOuterClass (v : Variable) (r : Reference) :
    Except String Bool :=
  match v.defs with
  | [] => .error tyErr
  | d :: _ =>
    if d.type != "ClassName" then .ok false
    else
      if v.scope.variableScope = r.fromScope.variableScope then
        if !isTopLevelScope v.scope.variableScope then .ok false
        else .ok true
      else .ok true

/-- Source lines 90-103: `isOuterVariable`. -/
def isOuterVariable (v : Variable) (r : Reference) :
    Except String Bool :=
  match v.defs with
  | [] => .error tyErr
  | d :: _ =>
    if d.type != "Variable" then .ok false
    else
      if v.scope.variableScope = r.fromScope.variableScope then
        if !isTopLevelScope v.scope.variableScope then .ok false
        else .ok true
      else .ok true

/-- Source lines 110-115: `isType`.  Reads `v.defs[0].parent.kind`;
the `parent` read throws when the first def has no parent node, and the
short-circuiting `&&` skips it when the def's type is not `Variable`. -/
def isType (v : Variable) : Except String Bool :=
  match v.defs with
  | [] => .error tyErr
  | d :: _ =>
    if d.type == "Variable" then
      match d.parent with
      | .null => .error tyErr
      | p => .ok (p.kind == "type")
    else .ok false

/-- Source lines 124-126: `isInRange`.  `node && node.range[0] <= location
&& location <= node.range[1]`, coerced to a boolean: false when the node is
absent. -/
def isInRange (node : Node) (location : Nat) : Bool :=
  match node with
  | .null => false
  | n => decide (n.range.1 ≤ location) && decide (location ≤ n.range.2)

/-- Source lines 151-172: the `while (node)` loop of `isInInitializer`,
walking the ancestor chain.  At a `VariableDeclarator` the loop reads
`node.parent.parent`, a `TypeError` when either link is absent (unless the
declarator's `init` already contains the location). -/
def initLoop (location : Nat) : Node → Except String Bool
  | .null => .ok false
  | Node.mk ty _ _ _ ini rt par =>
    if ty == "VariableDeclarator" then
      if isInRange ini location then .ok true
      else
        match par with
        | .null => .error tyErr
        | Node.mk _ _ _ _ _ _ pp =>
          match pp with
          | .null => .error tyErr
          | Node.mk gty _ _ _ _ grt _ =>
            .ok (FOR_IN_OF_TYPE gty && isInRange grt location)
    else if ty == "AssignmentPattern" then
      if isInRange rt location then .ok true
      else initLoop location par
    else if SENTINEL_TYPE ty then .ok false
    else initLoop location par

/-- Source lines 143-175: `isInInitializer`.  Returns false when
`v.scope !== reference.from`; otherwise starts the ancestor walk at
`v.identifiers[0].parent` (a `TypeError` when `identifiers` is
empty) with the reference identifier's range end as the location. -/
def isInInitializer (v : Variable) (r : Reference) :
    Except String Bool :=
  if v.scope ≠ r.fromScope then .ok false
  else
    match v.identifiers with
    | [] => .error tyErr
    | id0 :: _ => initLoop r.identifier.range.2 id0.parent

/-- Source lines 232-246: `isForbidden`, with the rule's `options` passed
explicitly (the source closes over them). -/
def isForbidden (options : Options) (v : Variable)
    (r : Reference) : Except String Bool :=
  match isFunction v with
  | .error e => .error e
  | .ok fn =>
    if fn then .ok options.functions
    else
      match isOuterClass v r with
      | .error e => .error e
      | .ok oc =>
        if oc then .ok options.classes
        else
          match isType v with
          | .error e => .error e
          | .ok ty =>
            if ty && !options.typedefs then .ok false
            else
              match isOuterVariable v r with
              | .error e => .error e
              | .ok ov =>
                if ov then .ok options.«variables»
                else .ok true

/-- Source lines 276-281: the record handed to `context.report`.  The rule
passes the whole `reference.identifier` node as `data`. -/
structure Diagnostic : Type where
  node : Node
  message : String
  data : Node
deriving DecidableEq

/-- Source line 279: the raw message template handed to `context.report`
(braces written with escapes). -/
def messageTemplate : String :=
  "'\x7b\x7bname\x7d\x7d' was used before it was defined."

/-- The diagnostic built at source lines 277-281 for a reported reference. -/
def reportFor (r : Reference) : Diagnostic :=
  ⟨r.identifier, messageTemplate, r.identifier⟩

/-- The decision the walk body (source lines 255-282) makes for one
reference: `ok none` when one of the five skip disjuncts at lines 264-272
holds, `ok (some _)` when the reference is reported, `error` when one of the
helper calls would throw.  The evaluation order and short-circuiting of the
`||`/`&&` chain is kept exactly. -/
def checkReference (options : Options) (r : Reference) :
    Except String (Option Diagnostic) :=
  if r.init then .ok none
  else
    match r.resolved with
    | none => .ok none
    | some v =>
      if v.identifiers.length == 0 then .ok none
      else
        match v.identifiers with
        | [] => .error tyErr
        | id0 :: _ =>
          let preceded :=
            decide (id0.range.2 < r.identifier.range.2)
          match (if preceded then isInInitializer v r else .ok true :
              Except String Bool) with
          | .error e => .error e
          | .ok inInit =>
            if preceded && !inInit then .ok none
            else
              match isForbidden options v r with
              | .error e => .error e
              | .ok forb =>
                if !forb then .ok none
                else .ok (some (reportFor r))

/-- A lexical scope as the walk reads it: its `references` in order and its
`childScopes` in order. -/
inductive Scope : Type where
  | mk (references : List Reference) (childScopes : List Scope) : Scope

/-- The scope's `references` list. -/
def Scope.references : Scope → List Reference
  | .mk refs _ => refs

/-- The scope's `childScopes` list. -/
def Scope.childScopes : Scope → List Scope
  | .mk _ cs => cs

/-- The `scope.references.forEach` loop of `findVariablesInScope` (source
lines 255-282), collecting the emitted diagnostics in order. -/
def checkReferences (options : Options) :
    List Reference → Except String (List Diagnostic)
  | [] => .ok []
  | r :: rest =>
    match checkReference options r with
    | .error e => .error e
    | .ok d? =>
      match checkReferences options rest with
      | .error e => .error e
      | .ok ds => .ok (d?.toList ++ ds)

mutual

/-- Source lines 254-285: `findVariablesInScope`, returning the sequence of
diagnostics it reports: the scope's own references first (in order), then
each child scope recursively (in order). -/
def findVariablesInScope (options : Options) :
    Scope → Except String (List Diagnostic)
  | .mk refs children =>
    match checkReferences options refs with
    | .error e => .error e
    | .ok own =>
      match findVariablesInScopes options children with
      | .error e => .error e
      | .ok sub => .ok (own ++ sub)

/-- The `scope.childScopes.forEach(findVariablesInScope)` recursion (source
line 284). -/
def findVariablesInScopes (options : Options) :
    List Scope → Except String (List Diagnostic)
  | [] => .ok []
  | s :: rest =>
    match findVariablesInScope options s with
    | .error e => .error e
    | .ok a =>
      match findVariablesInScopes options rest with
      | .error e => .error e
      | .ok b => .ok (a ++ b)

end

mutual

/-- The scopes the walk reaches from a root scope, in visiting order
(pre-order: the scope itself, then its children recursively). -/
def scopesReached : Scope → List Scope
  | .mk refs children => .mk refs children :: scopesReachedL children

/-- The scopes reached from each scope of a list, in order. -/
def scopesReachedL : List Scope → List Scope
  | [] => []
  | s :: rest => scopesReached s ++ scopesReachedL rest

end

mutual

/-- The number of scopes in a scope tree. -/
def scopeSize : Scope → Nat
  | .mk _ children => 1 + scopeSizeL children

/-- The total number of scopes in a list of scope trees. -/
def scopeSizeL : List Scope → Nat
  | [] => 0
  | s :: rest => scopeSize s + scopeSizeL rest

end

/-- The diagnostics the walk body emits for one reference: one when the
reference is reported, none when it is skipped or the check throws. -/
def emittedFor (options : Options) (r : Reference) : List Diagnostic :=
  match checkReference options r with
  | .ok (some d) => [d]
  | _ => []

/-- A primitive JavaScript value, for reading properties off a diagnostic's
`data` object. -/
inductive JSVal : Type where
  | str (s : String) : JSVal
  | pair (a b : Nat) : JSVal
deriving DecidableEq

/-- Property read on an AST node object, restricted to the primitive-valued
properties every ESTree node (resp. identifier) carries: `type`, `range` and
`name`.  Absent properties read as `none` (JavaScript `undefined`). -/
def Node.prop : Node → String → Option JSVal
  | .null, _ => none
  | .mk t rg nm _ _ _ _, k =>
    if k == "type" then some (.str t)
    else if k == "name" then some (.str nm)
    else if k == "range" then some (.pair rg.1 rg.2)
    else none

/-- Property read on the object literal `{ name: nm }`: only the `name`
property is present. -/
def nameOnlyRecord (nm : String) : String → Option JSVal :=
  fun k => if k == "name" then some (.str nm) else none

/-- Well-formedness of the ancestor chain `isInInitializer` walks for a
given location: every `VariableDeclarator` the loop can reach has a parent
with a parent (so the `node.parent.parent` read at source line 157 cannot
throw). -/
def chainWF (location : Nat) : Node → Bool
  | .null => true
  | .mk ty _ _ _ _ rt par =>
    if ty == "VariableDeclarator" then !par.isNull && !par.parent.isNull
    else if ty == "AssignmentPattern" then
      isInRange rt location || chainWF location par
    else if SENTINEL_TYPE ty then true
    else chainWF location par

/-- Well-formedness of a resolved variable for a reference ending at
`location`: a non-empty `defs` list whose first def has a parent node, and a
well-formed initializer ancestor chain from `identifiers[0].parent`. -/
def VariableWF (location : Nat) (v : Variable) : Bool :=
  !v.defs.isEmpty &&
  (match v.defs with
   | [] => false
   | d :: _ => !d.parent.isNull) &&
  (match v.identifiers with
   | [] => true
   | id0 :: _ => chainWF location id0.parent)

/-- Well-formedness of one reference: its resolved variable, if any, is
well-formed for the reference identifier's range end. -/
def RefWF (r : Reference) : Bool :=
  match r.resolved with
  | none => true
  | some v => VariableWF r.identifier.range.2 v

/-- Well-formedness of a whole scope tree: every reference of every reached
scope is well-formed. -/
def ScopeWF (s : Scope) : Bool :=
  (scopesReached s).all fun t => t.references.all RefWF

/-! Concrete example data, used by the witness and counterexample theorems.
It models the module-scope program `console.log(x); var x = 1;` together
with a few stand-alone variables and references. -/

/-- The top-level global variable scope of the examples. -/
def exTopVS : VarScope := ⟨0, "global"⟩

/-- The top-level scope handle of the examples. -/
def exTop : ScopeInfo := ⟨0, exTopVS⟩

/-- A nested (non-top-level) function variable scope. -/
def exFunVS : VarScope := ⟨1, "function"⟩

/-- A nested scope handle whose variable scope is `exFunVS`. -/
def exFun : ScopeInfo := ⟨1, exFunVS⟩

/-- The `Program` root node of the example. -/
def exProgram : Node := .mk "Program" (0, 26) "" "" .null .null .null

/-- The `var x = 1` declaration node (`kind` is `var`). -/
def exDeclaration : Node :=
  .mk "VariableDeclaration" (16, 26) "" "var" .null .null exProgram

/-- The literal `1` initializing `x`. -/
def exLiteral : Node := .mk "Literal" (24, 25) "" "" .null .null .null

/-- The `x = 1` declarator node. -/
def exDeclarator : Node :=
  .mk "VariableDeclarator" (20, 25) "" "" exLiteral .null exDeclaration

/-- The defining occurrence of `x` (inside the declarator). -/
def exDefId : Node := .mk "Identifier" (20, 21) "x" "" .null .null exDeclarator

/-- The variable `x`, declared at top level by a `Variable` def. -/
def exVarX : Variable := ⟨[⟨"Variable", exDeclaration⟩], [exDefId], exTop⟩

/-- The use of `x` in `console.log(x)`, before the declaration. -/
def exUseId : Node := .mk "Identifier" (12, 13) "x" "" .null .null .null

/-- The forward reference to `x` from the top scope. -/
def exRefX : Reference := ⟨false, some exVarX, exUseId, exTop⟩

/-- The init reference of the declaration `x = 1`. -/
def exInitRefX : Reference := ⟨true, some exVarX, exDefId, exTop⟩

/-- The example scope tree: one scope holding the two references, with one
empty child scope. -/
def exScope : Scope := .mk [exRefX, exInitRefX] [.mk [] []]

/-- The all-enabled policy. -/
def exAll : Options := ⟨true, true, true, true⟩

/-- The all-disabled policy. -/
def exNone : Options := ⟨false, false, false, false⟩

/-- A function-declaration variable at top level. -/
def exVarF : Variable :=
  ⟨[⟨"FunctionName", exProgram⟩],
   [.mk "Identifier" (18, 19) "f" "" .null .null .null], exTop⟩

/-- A forward reference to `f` from the top scope. -/
def exRefF : Reference :=
  ⟨false, some exVarF, .mk "Identifier" (0, 1) "f" "" .null .null .null, exTop⟩

/-- A `type T = ...` declaration node (`kind` is `type`). -/
def exTypeDecl : Node :=
  .mk "VariableDeclaration" (30, 45) "" "type" .null .null exProgram

/-- A type-alias variable declared inside the nested function scope. -/
def exVarT : Variable :=
  ⟨[⟨"Variable", exTypeDecl⟩],
   [.mk "Identifier" (35, 36) "T" "" .null .null .null], exFun⟩

/-- A reference to `T` from the same nested function scope. -/
def exRefT : Reference :=
  ⟨false, some exVarT, .mk "Identifier" (28, 29) "T" "" .null .null .null,
   exFun⟩

/-- A class variable declared inside the nested function scope. -/
def exVarC : Variable :=
  ⟨[⟨"ClassName", exProgram⟩],
   [.mk "Identifier" (40, 41) "C" "" .null .null .null], exFun⟩

/-- A reference to `C` from the same nested function scope. -/
def exRefC : Reference :=
  ⟨false, some exVarC, .mk "Identifier" (38, 39) "C" "" .null .null .null,
   exFun⟩

/-- A plain `var` variable declared inside the nested function scope. -/
def exVarV : Variable :=
  ⟨[⟨"Variable", exDeclaration⟩],
   [.mk "Identifier" (50, 51) "v" "" .null .null .null], exFun⟩

/-- A reference to `v` from the same nested function scope. -/
def exRefV : Reference :=
  ⟨false, some exVarV, .mk "Identifier" (48, 49) "v" "" .null .null .null,
   exFun⟩

/-- A resolved variable with a non-empty `defs` list (whose first def has a
parent node) but an empty `identifiers` list. -/
def exVarNoIds : Variable := ⟨[⟨"Variable", exDeclaration⟩], [], exTop⟩

/-- A reference, from the variable's own scope, resolving to the
identifier-less variable `exVarNoIds`. -/
def exRefNoIds : Reference :=
  ⟨false, some exVarNoIds, .mk "Identifier" (2, 3) "y" "" .null .null .null,
   exTop⟩

end NUBD

namespace NUBD

/-- C6: `parseOptions` maps the literal string `"nofunc"` to the policy
`{functions := false, classes := true, variables := true, typedefs := true}`
(disabling only the functions category), and maps an object to the policy in
which each of the four fields is `false` exactly when that field is
explicitly `false` in the object; unset fields default to enabled. -/
theorem parseOptions_nofunc_and_object :
    parseOptions (.str "nofunc") = ⟨false, true, true, true⟩ ∧
    ∀ f c v t : Option Bool,
      ((parseOptions (.obj f c v t)).functions = false ↔ f = some false) ∧
      ((parseOptions (.obj f c v t)).classes = false ↔ c = some false) ∧
      ((parseOptions (.obj f c v t)).«variables» = false ↔ v = some false) ∧
      ((parseOptions (.obj f c v t)).typedefs = false ↔ t = some false) := by
  refine ⟨rfl, ?_⟩
  decide

/-- C10: for every string option other than the literal `"nofunc"`,
`parseOptions` returns the all-enabled policy, identical to the result of
parsing the default options object used when no options are given at all. -/
theorem parseOptions_unknown_string (s : String) (hs : s ≠ "nofunc") :
    parseOptions (.str s) = ⟨true, true, true, true⟩ ∧
    ∀ d ∈ defaultOptions, parseOptions (.str s) = parseOptions d := by
  constructor
  · simp [parseOptions, Options.mk.injEq, bne_iff_ne, hs]
  · intro d hd
    simp [defaultOptions] at hd
    subst hd
    have hb : (s != "nofunc") = true := bne_iff_ne.mpr hs
    simp [parseOptions, hb]

theorem parseOptions_unknown_string_witness :
    parseOptions (.str "always") = ⟨true, true, true, true⟩ ∧
    ∀ d ∈ defaultOptions, parseOptions (.str "always") = parseOptions d :=
  parseOptions_unknown_string "always" (by decide)

/-- C4: for every variable whose `defs[0].type` is `FunctionName`,
`isForbidden` returns exactly `options.functions`, for every reference and
regardless of the scopes involved and of the other three policy fields (the
`FunctionName` case has first priority). -/
theorem isForbidden_function (o : Options) (v : Variable) (r : Reference)
    (d : Def) (hd : v.defs.head? = some d) (ht : d.type = "FunctionName") :
    isForbidden o v r = .ok o.functions := by
  match hv : v.defs with
  | [] => rw [hv] at hd; simp at hd
  | d0 :: rest =>
    rw [hv] at hd
    simp [List.head?] at hd
    subst hd
    simp [isForbidden, isFunction, hv, ht]

end NUBD

namespace NUBD

theorem isForbidden_function_witness :
    isForbidden exNone exVarF exRefF = .ok false :=
  isForbidden_function exNone exVarF exRefF ⟨"FunctionName", exProgram⟩ rfl rfl

/-- C3: for a variable whose `defs[0].type` is `ClassName` and a reference
with the same `variableScope` that is not top level (`global`/`module`),
`isForbidden` returns `true` regardless of the whole policy; the same holds
for a `Variable` def whose declaration's `kind` is not the type-alias kind
`"type"`. -/
theorem isForbidden_sameScope_default (o : Options) (v : Variable)
    (r : Reference) (d : Def) (hd : v.defs.head? = some d)
    (hvs : v.scope.variableScope = r.fromScope.variableScope)
    (htop : isTopLevelScope v.scope.variableScope = false) :
    (d.type = "ClassName" → isForbidden o v r = .ok true) ∧
    (d.type = "Variable" → d.parent ≠ .null → d.parent.kind ≠ "type" →
      isForbidden o v r = .ok true) := by
  match hv : v.defs with
  | [] => rw [hv] at hd; simp at hd
  | d0 :: rest =>
    rw [hv] at hd
    simp [List.head?] at hd
    subst hd
    have htop' : isTopLevelScope r.fromScope.variableScope = false :=
      hvs ▸ htop
    constructor
    · intro ht
      simp [isForbidden, isFunction, isOuterClass, isType, isOuterVariable,
        hv, ht, hvs, htop, htop']
    · intro ht hp hk
      match hdp : d0.parent with
      | .null => exact absurd hdp hp
      | .mk pt prg pn pk pi pr pp =>
        rw [hdp] at hk
        simp [Node.kind] at hk
        simp [isForbidden, isFunction, isOuterClass, isType, isOuterVariable,
          hv, ht, hvs, htop, htop', hdp, Node.kind, hk]

theorem isForbidden_sameScope_default_witness :
    (Def.type ⟨"ClassName", exProgram⟩ = "ClassName" →
      isForbidden exNone exVarC exRefC = .ok true) ∧
    (Def.type ⟨"ClassName", exProgram⟩ = "Variable" →
      Def.parent ⟨"ClassName", exProgram⟩ ≠ .null →
      Node.kind (Def.parent ⟨"ClassName", exProgram⟩) ≠ "type" →
      isForbidden exNone exVarC exRefC = .ok true) :=
  isForbidden_sameScope_default exNone exVarC exRefC ⟨"ClassName", exProgram⟩
    rfl rfl rfl

/-- C5: when `options.typedefs` is `false`, `isForbidden` returns `false`
for every variable whose `defs[0].type` is `Variable` and whose declaration
`kind` is `"type"`, for every reference, regardless of scopes and of the
other three policy fields; when `options.typedefs` is `true` such a variable
is classified by the outer-variable step instead: `true` when the reference
shares a non-top-level `variableScope`, `options.variables` otherwise. -/
theorem isForbidden_typeAlias (o : Options) (v : Variable) (r : Reference)
    (d : Def) (hd : v.defs.head? = some d) (ht : d.type = "Variable")
    (hk : d.parent.kind = "type") :
    (o.typedefs = false → isForbidden o v r = .ok false) ∧
    (o.typedefs = true → isForbidden o v r = .ok
      (if v.scope.variableScope = r.fromScope.variableScope ∧
          isTopLevelScope v.scope.variableScope = false
       then true else o.«variables»)) := by
  match hv : v.defs with
  | [] => rw [hv] at hd; simp at hd
  | d0 :: rest =>
    rw [hv] at hd
    simp [List.head?] at hd
    subst hd
    match hdp : d0.parent with
    | .null => rw [hdp] at hk; simp [Node.kind] at hk
    | .mk pt prg pn pk pi pr pp =>
      rw [hdp] at hk
      simp only [Node.kind] at hk
      constructor
      · intro htd
        simp [isForbidden, isFunction, isOuterClass, isType, hv, ht, hdp,
          Node.kind, hk, htd]
      · intro htd
        by_cases hvs : v.scope.variableScope = r.fromScope.variableScope
        · by_cases htop : isTopLevelScope v.scope.variableScope = true
          · have htop' : isTopLevelScope r.fromScope.variableScope = true :=
              hvs ▸ htop
            simp [isForbidden, isFunction, isOuterClass, isType,
              isOuterVariable, hv, ht, hdp, Node.kind, hk, htd, hvs, htop,
              htop']
          · simp only [Bool.not_eq_true] at htop
            have htop' : isTopLevelScope r.fromScope.variableScope = false :=
              hvs ▸ htop
            simp [isForbidden, isFunction, isOuterClass, isType,
              isOuterVariable, hv, ht, hdp, Node.kind, hk, htd, hvs, htop,
              htop']
        · simp [isForbidden, isFunction, isOuterClass, isType,
            isOuterVariable, hv, ht, hdp, Node.kind, hk, htd, hvs]

end NUBD

namespace NUBD

theorem isForbidden_typeAlias_witness :
    ((⟨true, true, true, false⟩ : Options).typedefs = false →
      isForbidden ⟨true, true, true, false⟩ exVarT exRefT = .ok false) ∧
    ((⟨true, true, true, false⟩ : Options).typedefs = true →
      isForbidden ⟨true, true, true, false⟩ exVarT exRefT = .ok
        (if exVarT.scope.variableScope = exRefT.fromScope.variableScope ∧
            isTopLevelScope exVarT.scope.variableScope = false
         then true else (⟨true, true, true, false⟩ : Options).«variables»)) :=
  isForbidden_typeAlias ⟨true, true, true, false⟩ exVarT exRefT
    ⟨"Variable", exTypeDecl⟩ rfl rfl rfl

/-- C2: `isInInitializer` returns `false` whenever `variable.scope` is not
the reference's `from` scope; otherwise it walks the parent chain from
`variable.identifiers[0].parent` with the reference identifier's range end
as location, returning `true` at a `VariableDeclarator` whose `init` range
holds the location or whose grandparent is a for-in/for-of statement whose
`right` range holds the location (stopping at the declarator either way),
returning `true` at an `AssignmentPattern` whose `right` range holds the
location (continuing upward otherwise), and returning `false` at a sentinel
node or at the end of the chain. -/
theorem isInInitializer_spec :
    (∀ (v : Variable) (r : Reference), v.scope ≠ r.fromScope →
      isInInitializer v r = .ok false) ∧
    (∀ (v : Variable) (r : Reference) (id0 : Node),
      v.scope = r.fromScope → v.identifiers.head? = some id0 →
      isInInitializer v r = initLoop r.identifier.range.2 id0.parent) ∧
    (∀ location : Nat, initLoop location .null = .ok false) ∧
    (∀ (location : Nat) (n : Node), n.type = "VariableDeclarator" →
      isInRange n.init location = true → initLoop location n = .ok true) ∧
    (∀ (location : Nat) (n : Node), n.type = "VariableDeclarator" →
      isInRange n.init location = false → n.parent ≠ .null →
      n.parent.parent ≠ .null →
      initLoop location n = .ok (FOR_IN_OF_TYPE n.parent.parent.type &&
        isInRange n.parent.parent.right location)) ∧
    (∀ (location : Nat) (n : Node), n.type = "AssignmentPattern" →
      isInRange n.right location = true → initLoop location n = .ok true) ∧
    (∀ (location : Nat) (n : Node), n.type = "AssignmentPattern" →
      isInRange n.right location = false →
      initLoop location n = initLoop location n.parent) ∧
    (∀ (location : Nat) (n : Node), n ≠ .null →
      SENTINEL_TYPE n.type = true → initLoop location n = .ok false) ∧
    (∀ (location : Nat) (n : Node), n ≠ .null →
      n.type ≠ "VariableDeclarator" → n.type ≠ "AssignmentPattern" →
      SENTINEL_TYPE n.type = false →
      initLoop location n = initLoop location n.parent) := by
  refine ⟨?_, ?_, ?_, ?_, ?_, ?_, ?_, ?_, ?_⟩
  · intro v r hne
    simp [isInInitializer, hne]
  · intro v r id0 hsc hid
    match hv : v.identifiers with
    | [] => rw [hv] at hid; simp at hid
    | i :: rest =>
      rw [hv] at hid
      simp [List.head?] at hid
      subst hid
      simp [isInInitializer, hsc, hv]
  · intro location
    simp [initLoop]
  · intro location n ht hr
    match n with
    | .null => simp [Node.type] at ht
    | .mk ty rg nm k ini rt par =>
      simp only [Node.type] at ht
      simp only [Node.init] at hr
      subst ht
      simp [initLoop, hr]
  · intro location n ht hr hp hpp
    match n with
    | .null => simp [Node.type] at ht
    | .mk ty rg nm k ini rt par =>
      simp only [Node.type] at ht
      simp only [Node.init] at hr
      subst ht
      match hq : par with
      | .null => simp [Node.parent] at hp
      | .mk pt pr2 pn pk pi prt pp2 =>
        match hq2 : pp2 with
        | .null => simp [Node.parent] at hpp
        | .mk gt grg gn gk gi grt gp =>
          simp [initLoop, hr, Node.parent, Node.type, Node.right]
  · intro location n ht hr
    match n with
    | .null => simp [Node.type] at ht
    | .mk ty rg nm k ini rt par =>
      simp only [Node.type] at ht
      simp only [Node.right] at hr
      subst ht
      simp [initLoop, hr]
  · intro location n ht hr
    match n with
    | .null => simp [Node.type] at ht
    | .mk ty rg nm k ini rt par =>
      simp only [Node.type] at ht
      simp only [Node.right] at hr
      subst ht
      simp [initLoop, hr, Node.parent]
  · intro location n hnn hs
    match n with
    | .null => exact absurd rfl hnn
    | .mk ty rg nm k ini rt par =>
      simp only [Node.type] at hs
      have h1 : ty ≠ "VariableDeclarator" := by
        intro h; rw [h] at hs; exact absurd hs (by decide)
      have h2 : ty ≠ "AssignmentPattern" := by
        intro h; rw [h] at hs; exact absurd hs (by decide)
      simp [initLoop, h1, h2, hs]
  · intro location n hnn h1 h2 hs
    match n with
    | .null => exact absurd rfl hnn
    | .mk ty rg nm k ini rt par =>
      simp only [Node.type] at h1 h2 hs
      simp [initLoop, h1, h2, hs, Node.parent]

end NUBD

namespace NUBD

theorem isInInitializer_spec_witness :
    isInInitializer exVarX exRefX =
      initLoop exRefX.identifier.range.2 exDefId.parent ∧
    initLoop 13 .null = .ok false ∧
    initLoop 24 exDeclarator = .ok true :=
  ⟨isInInitializer_spec.2.1 exVarX exRefX exDefId rfl rfl,
   isInInitializer_spec.2.2.1 13,
   isInInitializer_spec.2.2.2.1 24 exDeclarator rfl (by decide)⟩

theorem initLoop_chainWF (location : Nat) :
    ∀ n : Node, chainWF location n = true →
      ∃ b, initLoop location n = .ok b := by
  intro n
  induction n with
  | null => intro _; exact ⟨false, rfl⟩
  | mk ty rg nm k ini rt par ihi ihr ihp =>
    intro h
    rw [chainWF] at h
    by_cases h1 : (ty == "VariableDeclarator") = true
    · rw [if_pos h1] at h
      rw [Bool.and_eq_true] at h
      obtain ⟨hp, hpp⟩ := h
      by_cases hr : isInRange ini location = true
      · exact ⟨true, by simp [initLoop, h1, hr]⟩
      · simp only [Bool.not_eq_true] at hr
        match hq : par with
        | .null => simp [Node.isNull] at hp
        | .mk pt prg pn pk pi prt pp =>
          match hq2 : pp with
          | .null =>
            simp [Node.parent, Node.isNull] at hpp
          | .mk gt grg gn gk gi grt gp =>
            exact ⟨FOR_IN_OF_TYPE gt && isInRange grt location,
              by simp [initLoop, h1, hr]⟩
    · rw [if_neg h1] at h
      by_cases h2 : (ty == "AssignmentPattern") = true
      · rw [if_pos h2] at h
        by_cases hr : isInRange rt location = true
        · exact ⟨true, by simp [initLoop, h1, h2, hr]⟩
        · simp only [Bool.not_eq_true] at hr
          rw [hr, Bool.false_or] at h
          obtain ⟨b, hb⟩ := ihp h
          exact ⟨b, by simp [initLoop, h1, h2, hr, hb]⟩
      · rw [if_neg h2] at h
        by_cases h3 : SENTINEL_TYPE ty = true
        · exact ⟨false, by simp [initLoop, h1, h2, h3]⟩
        · simp only [Bool.not_eq_true] at h3
          rw [if_neg (by simp [h3])] at h
          obtain ⟨b, hb⟩ := ihp h
          exact ⟨b, by simp [initLoop, h1, h2, h3, hb]⟩

theorem isInInitializer_wf (v : Variable) (r : Reference)
    (h : VariableWF r.identifier.range.2 v = true)
    (hid : v.identifiers ≠ []) :
    ∃ b, isInInitializer v r = .ok b := by
  by_cases hsc : v.scope = r.fromScope
  · match hv : v.identifiers with
    | [] => exact absurd hv hid
    | id0 :: rest =>
      rw [VariableWF, hv] at h
      rw [Bool.and_eq_true, Bool.and_eq_true] at h
      obtain ⟨⟨h1, h2⟩, hch⟩ := h
      obtain ⟨b, hb⟩ := initLoop_chainWF r.identifier.range.2 id0.parent hch
      exact ⟨b, by simp [isInInitializer, hsc, hv, hb]⟩
  · exact ⟨false, by simp [isInInitializer, hsc]⟩

theorem isForbidden_wf (o : Options) (v : Variable) (r : Reference)
    (h : VariableWF r.identifier.range.2 v = true) :
    ∃ b, isForbidden o v r = .ok b := by
  rw [VariableWF] at h
  rw [Bool.and_eq_true, Bool.and_eq_true] at h
  obtain ⟨⟨h1, h2⟩, hch⟩ := h
  match hv : v.defs with
  | [] => rw [hv] at h1; simp [List.isEmpty] at h1
  | d :: rest =>
    rw [hv] at h2
    have h2' : (!d.parent.isNull) = true := h2
    match hdp : d.parent with
    | .null => rw [hdp] at h2'; simp [Node.isNull] at h2' 
    | .mk pt prg pn pk pi prt pp =>
      have hFn : isFunction v = .ok (d.type == "FunctionName") := by
        simp [isFunction, hv]
      have hOc : ∃ b, isOuterClass v r = .ok b := by
        simp only [isOuterClass, hv]
        split_ifs <;> exact ⟨_, rfl⟩
      have hTy : ∃ b, isType v = .ok b := by
        simp only [isType, hv, hdp]
        split_ifs <;> exact ⟨_, rfl⟩
      have hOv : ∃ b, isOuterVariable v r = .ok b := by
        simp only [isOuterVariable, hv]
        split_ifs <;> exact ⟨_, rfl⟩
      obtain ⟨boc, hOc⟩ := hOc
      obtain ⟨bty, hTy⟩ := hTy
      obtain ⟨bov, hOv⟩ := hOv
      simp only [isForbidden, hFn, hOc, hTy, hOv]
      split_ifs <;> exact ⟨_, rfl⟩

theorem checkReference_wf (o : Options) (r : Reference)
    (h : RefWF r = true) : ∃ x, checkReference o r = .ok x := by
  rw [RefWF] at h
  by_cases hi : r.init = true
  · exact ⟨none, by simp [checkReference, hi]⟩
  · simp only [Bool.not_eq_true] at hi
    match hres : r.resolved with
    | none => exact ⟨none, by simp [checkReference, hi, hres]⟩
    | some v =>
      rw [hres] at h
      have hwf : VariableWF r.identifier.range.2 v = true := h
      match hv : v.identifiers with
      | [] => exact ⟨none, by simp [checkReference, hi, hres, hv]⟩
      | id0 :: rest =>
        have hid : v.identifiers ≠ [] := by rw [hv]; simp
        obtain ⟨bf, hbf⟩ := isForbidden_wf o v r hwf
        obtain ⟨bi, hbi⟩ := isInInitializer_wf v r hwf hid
        have hsel : (if decide (id0.range.2 < r.identifier.range.2) = true
            then isInInitializer v r else .ok true) =
            .ok (if decide (id0.range.2 < r.identifier.range.2) = true
              then bi else true) := by
          split_ifs <;> simp [hbi]
        simp only [checkReference, hi, Bool.false_eq_true, if_false, hres, hv]
        rw [if_neg (by simp)]
        simp only [hsel, hbf]
        split_ifs <;> exact ⟨_, rfl⟩

end NUBD

namespace NUBD

theorem checkReferences_wf (o : Options) :
    ∀ refs : List Reference, (∀ r ∈ refs, RefWF r = true) →
      ∃ ds, checkReferences o refs = .ok ds := by
  intro refs
  induction refs with
  | nil => intro _; exact ⟨[], rfl⟩
  | cons r rest ih =>
    intro h
    obtain ⟨x, hx⟩ := checkReference_wf o r (h r (by simp))
    obtain ⟨ds, hds⟩ := ih (fun q hq => h q (by simp [hq]))
    exact ⟨x.toList ++ ds, by simp [checkReferences, hx, hds]⟩

mutual

theorem findVariablesInScope_wf (o : Options) (s : Scope)
    (h : ∀ t ∈ scopesReached s, ∀ r ∈ t.references, RefWF r = true) :
    ∃ ds, findVariablesInScope o s = .ok ds := by
  match s with
  | .mk refs cs =>
    have hself : ∀ r ∈ refs, RefWF r = true := by
      have hm := h (Scope.mk refs cs)
        (by rw [scopesReached]; exact List.mem_cons_self _ _)
      simpa [Scope.references] using hm
    obtain ⟨own, hown⟩ := checkReferences_wf o refs hself
    obtain ⟨sub, hsub⟩ := findVariablesInScopes_wf o cs
      (fun t ht r hr =>
        h t (by rw [scopesReached]; exact List.mem_cons_of_mem _ ht) r hr)
    exact ⟨own ++ sub, by simp [findVariablesInScope, hown, hsub]⟩

theorem findVariablesInScopes_wf (o : Options) (l : List Scope)
    (h : ∀ t ∈ scopesReachedL l, ∀ r ∈ t.references, RefWF r = true) :
    ∃ ds, findVariablesInScopes o l = .ok ds := by
  match l with
  | [] => exact ⟨[], rfl⟩
  | s :: rest =>
    obtain ⟨a, ha⟩ := findVariablesInScope_wf o s
      (fun t ht r hr =>
        h t (by rw [scopesReachedL]; exact List.mem_append_left _ ht) r hr)
    obtain ⟨b, hb⟩ := findVariablesInScopes_wf o rest
      (fun t ht r hr =>
        h t (by rw [scopesReachedL]; exact List.mem_append_right _ ht) r hr)
    exact ⟨a ++ b, by simp [findVariablesInScopes, ha, hb]⟩

end

end NUBD

namespace NUBD

/-- C9 (amended): under the preconditions that every resolved variable has
a non-empty `defs` list whose first def has a parent node and a well-formed
initializer ancestor chain, the walk and `isForbidden` evaluate without
reaching an error branch, and so does `isInInitializer` **provided the
variable's `identifiers` list is non-empty** (the walk guarantees this by
its `identifiers.length == 0` guard; the amendment adds this hypothesis,
which the claim as stated omits); `isInRange` is total and returns `true`
iff the node exists and `range[0] <= location <= range[1]`. -/
theorem noError_of_wf :
    (∀ (o : Options) (s : Scope), ScopeWF s = true →
      ∃ ds, findVariablesInScope o s = .ok ds) ∧
    (∀ (o : Options) (v : Variable) (r : Reference),
      VariableWF r.identifier.range.2 v = true →
      ∃ b, isForbidden o v r = .ok b) ∧
    (∀ (v : Variable) (r : Reference),
      VariableWF r.identifier.range.2 v = true → v.identifiers ≠ [] →
      ∃ b, isInInitializer v r = .ok b) ∧
    (∀ (n : Node) (location : Nat),
      isInRange n location = true ↔
        n ≠ .null ∧ n.range.1 ≤ location ∧ location ≤ n.range.2) := by
  refine ⟨?_, fun o v r h => isForbidden_wf o v r h,
    fun v r h hid => isInInitializer_wf v r h hid, ?_⟩
  · intro o s hs
    apply findVariablesInScope_wf
    intro t ht r hr
    rw [ScopeWF, List.all_eq_true] at hs
    have h2 := hs t ht
    rw [List.all_eq_true] at h2
    exact h2 r hr
  · intro n location
    match n with
    | .null => simp [isInRange]
    | .mk t rg nm k i rt p =>
      simp [isInRange, Node.range]

theorem noError_of_wf_witness :
    ∃ ds, findVariablesInScope exAll exScope = .ok ds :=
  noError_of_wf.1 exAll exScope (by rfl)

/-- C9 counterexample: a resolved variable satisfying the claim's stated
preconditions (non-empty `defs`, first def with a parent node, trivially
well-formed chain) whose `identifiers` list is empty makes
`isInInitializer` reach the error branch (the `variable.identifiers[0]`
read) when the reference comes from the variable's own scope, so the error
branches are not unreachable under the claim's preconditions alone. -/
theorem isInInitializer_error_example :
    VariableWF exRefNoIds.identifier.range.2 exVarNoIds = true ∧
    exVarNoIds.defs ≠ [] ∧
    (∀ d ∈ exVarNoIds.defs.head?, d.parent ≠ Node.null) ∧
    exVarNoIds.scope = exRefNoIds.fromScope ∧
    isInInitializer exVarNoIds exRefNoIds = .error tyErr := by
  refine ⟨by rfl, by simp [exVarNoIds], ?_, rfl, by rfl⟩
  intro d hd
  simp [exVarNoIds] at hd
  subst hd
  simp [exDeclaration]

end NUBD

namespace NUBD

theorem checkReferences_eq_bind (o : Options) :
    ∀ (refs : List Reference) (ds : List Diagnostic),
      checkReferences o refs = .ok ds → ds = refs.flatMap (emittedFor o) := by
  intro refs
  induction refs with
  | nil =>
    intro ds h
    rw [checkReferences] at h
    simp only [Except.ok.injEq] at h
    simp [← h]
  | cons r rest ih =>
    intro ds h
    rw [checkReferences] at h
    cases hx : checkReference o r with
    | error e => rw [hx] at h; simp at h
    | ok d? =>
      rw [hx] at h
      cases hrest : checkReferences o rest with
      | error e => rw [hrest] at h; simp at h
      | ok ds2 =>
        rw [hrest] at h
        simp only [Except.ok.injEq] at h
        have hrec := ih ds2 hrest
        have hem : emittedFor o r = d?.toList := by
          cases d? <;> simp [emittedFor, hx]
        rw [List.flatMap_cons, hem, ← hrec, h]

mutual

theorem findVariablesInScope_eq_bind (o : Options) (s : Scope)
    (ds : List Diagnostic) (h : findVariablesInScope o s = .ok ds) :
    ds = (scopesReached s).flatMap
      (fun t => t.references.flatMap (emittedFor o)) := by
  match s with
  | .mk refs cs =>
    rw [findVariablesInScope] at h
    cases hown : checkReferences o refs with
    | error e => rw [hown] at h; simp at h
    | ok own =>
      rw [hown] at h
      cases hsub : findVariablesInScopes o cs with
      | error e => rw [hsub] at h; simp at h
      | ok sub =>
        rw [hsub] at h
        simp only [Except.ok.injEq] at h
        have h1 := checkReferences_eq_bind o refs own hown
        have h2 := findVariablesInScopes_eq_bind o cs sub hsub
        rw [scopesReached, List.flatMap_cons, ← h, h1, h2, Scope.references]

theorem findVariablesInScopes_eq_bind (o : Options) (l : List Scope)
    (ds : List Diagnostic) (h : findVariablesInScopes o l = .ok ds) :
    ds = (scopesReachedL l).flatMap
      (fun t => t.references.flatMap (emittedFor o)) := by
  match l with
  | [] =>
    rw [findVariablesInScopes] at h
    simp only [Except.ok.injEq] at h
    simp [← h, scopesReachedL]
  | s :: rest =>
    rw [findVariablesInScopes] at h
    cases ha : findVariablesInScope o s with
    | error e => rw [ha] at h; simp at h
    | ok a =>
      rw [ha] at h
      cases hb : findVariablesInScopes o rest with
      | error e => rw [hb] at h; simp at h
      | ok b =>
        rw [hb] at h
        simp only [Except.ok.injEq] at h
        have h1 := findVariablesInScope_eq_bind o s a ha
        have h2 := findVariablesInScopes_eq_bind o rest b hb
        rw [scopesReachedL, List.flatMap_append, ← h, h1, h2]

end

mutual

theorem scopesReached_length (s : Scope) :
    (scopesReached s).length = scopeSize s := by
  match s with
  | .mk refs cs =>
    rw [scopesReached, scopeSize, List.length_cons,
      scopesReachedL_length cs, Nat.add_comm]

theorem scopesReachedL_length (l : List Scope) :
    (scopesReachedL l).length = scopeSizeL l := by
  match l with
  | [] => rw [scopesReachedL, scopeSizeL]; rfl
  | s :: rest =>
    rw [scopesReachedL, scopeSizeL, List.length_append,
      scopesReached_length s, scopesReachedL_length rest]

end

/-- C8: the walk is deterministic (any run over the same scope tree with
the same policy yields the same diagnostic list), its output is exactly the
concatenation, over the reached scopes in pre-order (each scope's own
references in order, then its child scopes recursively in order), of the
diagnostics emitted per reference, and the number of reached scopes equals
the size of the scope tree (every descendant is visited exactly once). -/
theorem walk_deterministic_preorder (o : Options) (s : Scope)
    (ds : List Diagnostic) (h : findVariablesInScope o s = .ok ds) :
    (∀ ds', findVariablesInScope o s = .ok ds' → ds' = ds) ∧
    ds = (scopesReached s).flatMap
      (fun t => t.references.flatMap (emittedFor o)) ∧
    (scopesReached s).length = scopeSize s := by
  refine ⟨?_, findVariablesInScope_eq_bind o s ds h, scopesReached_length s⟩
  intro ds' h'
  rw [h] at h'
  exact (Except.ok.injEq _ _ ▸ h').symm

end NUBD

namespace NUBD

theorem walk_deterministic_preorder_witness :
    (∀ ds', findVariablesInScope exAll exScope = .ok ds' →
      ds' = [reportFor exRefX]) ∧
    [reportFor exRefX] = (scopesReached exScope).flatMap
      (fun t => t.references.flatMap (emittedFor exAll)) ∧
    (scopesReached exScope).length = scopeSize exScope :=
  walk_deterministic_preorder exAll exScope [reportFor exRefX] (by rfl)

theorem checkReferences_ok_mem (o : Options) :
    ∀ (refs : List Reference) (ds : List Diagnostic),
      checkReferences o refs = .ok ds →
      ∀ r ∈ refs, ∃ x, checkReference o r = .ok x := by
  intro refs
  induction refs with
  | nil => intro ds _ r hr; simp at hr
  | cons q rest ih =>
    intro ds h r hr
    rw [checkReferences] at h
    cases hx : checkReference o q with
    | error e => rw [hx] at h; simp at h
    | ok d? =>
      rw [hx] at h
      cases hrest : checkReferences o rest with
      | error e => rw [hrest] at h; simp at h
      | ok ds2 =>
        rcases List.mem_cons.mp hr with hq | hmem
        · exact ⟨d?, hq ▸ hx⟩
        · exact ih ds2 hrest r hmem

mutual

theorem findVariablesInScope_refs_ok (o : Options) (s : Scope)
    (ds : List Diagnostic) (h : findVariablesInScope o s = .ok ds) :
    ∀ t ∈ scopesReached s, ∃ own, checkReferences o t.references = .ok own := by
  match s with
  | .mk refs cs =>
    rw [findVariablesInScope] at h
    cases hown : checkReferences o refs with
    | error e => rw [hown] at h; simp at h
    | ok own =>
      rw [hown] at h
      cases hsub : findVariablesInScopes o cs with
      | error e => rw [hsub] at h; simp at h
      | ok sub =>
        intro t ht
        rw [scopesReached] at ht
        rcases List.mem_cons.mp ht with hteq | hmem
        · exact ⟨own, by rw [hteq]; exact hown⟩
        · exact findVariablesInScopes_refs_ok o cs sub hsub t hmem

theorem findVariablesInScopes_refs_ok (o : Options) (l : List Scope)
    (ds : List Diagnostic) (h : findVariablesInScopes o l = .ok ds) :
    ∀ t ∈ scopesReachedL l, ∃ own, checkReferences o t.references = .ok own := by
  match l with
  | [] => intro t ht; rw [scopesReachedL] at ht; simp at ht
  | s :: rest =>
    rw [findVariablesInScopes] at h
    cases ha : findVariablesInScope o s with
    | error e => rw [ha] at h; simp at h
    | ok a =>
      rw [ha] at h
      cases hb : findVariablesInScopes o rest with
      | error e => rw [hb] at h; simp at h
      | ok b =>
        intro t ht
        rw [scopesReachedL] at ht
        rcases List.mem_append.mp ht with hmem | hmem
        · exact findVariablesInScope_refs_ok o s a ha t hmem
        · exact findVariablesInScopes_refs_ok o rest b hb t hmem

end

end NUBD

namespace NUBD

theorem checkReference_spec (o : Options) (r : Reference)
    (x : Option Diagnostic) (h : checkReference o r = .ok x) :
    (∀ d, x = some d → d = reportFor r) ∧
    (x = some (reportFor r) ↔
      r.init = false ∧
      ∃ v, r.resolved = some v ∧ v.identifiers ≠ [] ∧
        (∀ id0, v.identifiers.head? = some id0 →
          id0.range.2 < r.identifier.range.2 →
          isInInitializer v r = .ok true) ∧
        isForbidden o v r = .ok true) := by
  by_cases hi : r.init = true
  · have hx : x = none := by
      rw [checkReference, if_pos hi] at h
      simpa using h.symm
    subst hx
    refine ⟨fun d hd => by simp at hd, ?_⟩
    constructor
    · intro hd; simp at hd
    · rintro ⟨hf, -⟩; rw [hi] at hf; simp at hf
  · simp only [Bool.not_eq_true] at hi
    match hres : r.resolved with
    | none =>
      have hx : x = none := by
        rw [checkReference] at h
        rw [if_neg (by simp [hi])] at h
        rw [hres] at h
        simpa using h.symm
      subst hx
      refine ⟨fun d hd => by simp at hd, ?_⟩
      constructor
      · intro hd; simp at hd
      · rintro ⟨-, v, hv, -⟩; simp at hv
    | some v =>
      match hv : v.identifiers with
      | [] =>
        have hx : x = none := by
          rw [checkReference] at h
          rw [if_neg (by simp [hi])] at h
          rw [hres] at h
          simp only [hv, List.length_nil] at h
          simpa using h.symm
        subst hx
        refine ⟨fun d hd => by simp at hd, ?_⟩
        constructor
        · intro hd; simp at hd
        · rintro ⟨-, v', hv', hne, -⟩
          simp only [Option.some.injEq] at hv'
          subst hv'
          exact absurd hv hne
      | id0 :: rest =>
        have hred : checkReference o r =
            (match (if decide (id0.range.2 < r.identifier.range.2) = true
                then isInInitializer v r else .ok true :
                Except String Bool) with
            | .error e => .error e
            | .ok inInit =>
              if decide (id0.range.2 < r.identifier.range.2) && !inInit
              then .ok none
              else
                match isForbidden o v r with
                | .error e => .error e
                | .ok forb =>
                  if !forb then .ok none
                  else .ok (some (reportFor r))) := by
          rw [checkReference]
          rw [if_neg (by simp [hi])]
          rw [hres]
          simp only [hv, List.length_cons]
          rw [if_neg (by simp)]
        rw [hred] at h
        by_cases hp : id0.range.2 < r.identifier.range.2
        · have hdp : decide (id0.range.2 < r.identifier.range.2) = true :=
            decide_eq_true hp
          rw [if_pos hdp] at h
          cases hii : isInInitializer v r with
          | error e => rw [hii] at h; simp at h
          | ok bi =>
            rw [hii] at h
            cases bi with
            | false =>
              have hx : x = none := by
                simpa [hdp] using h.symm
              subst hx
              refine ⟨fun d hd => by simp at hd, ?_⟩
              constructor
              · intro hd; simp at hd
              · rintro ⟨-, v', hv', -, hall, -⟩
                simp only [Option.some.injEq] at hv'
                subst hv'
                have hcon := hall id0 (by rw [hv]; rfl) hp
                rw [hii] at hcon
                simp at hcon
            | true =>
              simp only [Bool.not_true, Bool.and_false,
                Bool.false_eq_true, if_false] at h
              cases hfb : isForbidden o v r with
              | error e => rw [hfb] at h; simp at h
              | ok fb =>
                rw [hfb] at h
                cases fb with
                | false =>
                  have hx : x = none := by simpa using h.symm
                  subst hx
                  refine ⟨fun d hd => by simp at hd, ?_⟩
                  constructor
                  · intro hd; simp at hd
                  · rintro ⟨-, v', hv', -, -, hforb⟩
                    simp only [Option.some.injEq] at hv'
                    subst hv'
                    rw [hfb] at hforb
                    simp at hforb
                | true =>
                  have hx : x = some (reportFor r) := by
                    simpa using h.symm
                  subst hx
                  refine ⟨fun d hd => by simpa using hd.symm, ?_⟩
                  constructor
                  · intro _
                    refine ⟨hi, v, rfl, by rw [hv]; simp, ?_, hfb⟩
                    intro id0' hid0' _
                    rw [hv] at hid0'
                    simp only [List.head?_cons, Option.some.injEq] at hid0'
                    subst hid0'
                    exact hii
                  · intro _; rfl
        · have hdp : decide (id0.range.2 < r.identifier.range.2) = false :=
            decide_eq_false hp
          rw [if_neg (by simp [hdp])] at h
          simp only [hdp, Bool.false_and, Bool.false_eq_true, if_false] at h
          cases hfb : isForbidden o v r with
          | error e => rw [hfb] at h; simp at h
          | ok fb =>
            rw [hfb] at h
            cases fb with
            | false =>
              have hx : x = none := by simpa using h.symm
              subst hx
              refine ⟨fun d hd => by simp at hd, ?_⟩
              constructor
              · intro hd; simp at hd
              · rintro ⟨-, v', hv', -, -, hforb⟩
                simp only [Option.some.injEq] at hv'
                subst hv'
                rw [hfb] at hforb
                simp at hforb
            | true =>
              have hx : x = some (reportFor r) := by simpa using h.symm
              subst hx
              refine ⟨fun d hd => by simpa using hd.symm, ?_⟩
              constructor
              · intro _
                refine ⟨hi, v, rfl, by rw [hv]; simp, ?_, hfb⟩
                intro id0' hid0' hplt
                rw [hv] at hid0'
                simp only [List.head?_cons, Option.some.injEq] at hid0'
                subst hid0'
                exact absurd hplt hp
              · intro _; rfl

end NUBD

namespace NUBD

/-- C1: for every scope reached by a successful walk and every reference
in that scope's references list, the walk body emits a diagnostic for that
reference (`checkReference` returns `some`, necessarily the reference's own
report) iff the reference's `init` flag is false, its resolved variable is
set, that variable's identifiers list is non-empty, it is not the case that
the first identifier's range end is strictly below the reference
identifier's range end while `isInInitializer` returns false, and
`isForbidden` returns true; in particular no diagnostic is produced for an
init reference or an unresolved one. -/
theorem walk_reports_iff (o : Options) (s : Scope) (ds : List Diagnostic)
    (h : findVariablesInScope o s = .ok ds)
    (t : Scope) (ht : t ∈ scopesReached s)
    (r : Reference) (hr : r ∈ t.references) :
    ∃ x, checkReference o r = .ok x ∧
      (∀ d, x = some d → d = reportFor r) ∧
      (x = some (reportFor r) ↔
        r.init = false ∧
        ∃ v, r.resolved = some v ∧ v.identifiers ≠ [] ∧
          (∀ id0, v.identifiers.head? = some id0 →
            id0.range.2 < r.identifier.range.2 →
            isInInitializer v r = .ok true) ∧
          isForbidden o v r = .ok true) := by
  obtain ⟨own, hown⟩ := findVariablesInScope_refs_ok o s ds h t ht
  obtain ⟨x, hx⟩ := checkReferences_ok_mem o t.references own hown r hr
  obtain ⟨h1, h2⟩ := checkReference_spec o r x hx
  exact ⟨x, hx, h1, h2⟩

theorem walk_reports_iff_witness :
    ∃ x, checkReference exAll exRefX = .ok x ∧
      (∀ d, x = some d → d = reportFor exRefX) ∧
      (x = some (reportFor exRefX) ↔
        exRefX.init = false ∧
        ∃ v, exRefX.resolved = some v ∧ v.identifiers ≠ [] ∧
          (∀ id0, v.identifiers.head? = some id0 →
            id0.range.2 < exRefX.identifier.range.2 →
            isInInitializer v exRefX = .ok true) ∧
          isForbidden exAll v exRefX = .ok true) :=
  walk_reports_iff exAll exScope [reportFor exRefX] (by rfl) exScope
    (List.mem_cons_self _ _) exRefX (List.mem_cons_self _ _)

theorem checkReferences_mem (o : Options) :
    ∀ (refs : List Reference) (ds : List Diagnostic),
      checkReferences o refs = .ok ds → ∀ d ∈ ds,
      ∃ r ∈ refs, checkReference o r = .ok (some d) := by
  intro refs
  induction refs with
  | nil =>
    intro ds h d hd
    rw [checkReferences] at h
    have : ([] : List Diagnostic) = ds := by simpa using h
    rw [← this] at hd
    simp at hd
  | cons q rest ih =>
    intro ds h d hd
    rw [checkReferences] at h
    cases hx : checkReference o q with
    | error e => rw [hx] at h; simp at h
    | ok d? =>
      rw [hx] at h
      cases hrest : checkReferences o rest with
      | error e => rw [hrest] at h; simp at h
      | ok ds2 =>
        rw [hrest] at h
        simp only [Except.ok.injEq] at h
        rw [← h] at hd
        rcases List.mem_append.mp hd with hmem | hmem
        · cases d? with
          | none => simp at hmem
          | some dd =>
            simp only [Option.toList_some, List.mem_singleton] at hmem
            subst hmem
            exact ⟨q, by simp, hx⟩
        · obtain ⟨r, hrm, hcr⟩ := ih ds2 hrest d hmem
          exact ⟨r, by simp [hrm], hcr⟩

mutual

theorem findVariablesInScope_mem (o : Options) (s : Scope)
    (ds : List Diagnostic) (h : findVariablesInScope o s = .ok ds) :
    ∀ d ∈ ds, ∃ t ∈ scopesReached s, ∃ r ∈ t.references,
      checkReference o r = .ok (some d) := by
  match s with
  | .mk refs cs =>
    rw [findVariablesInScope] at h
    cases hown : checkReferences o refs with
    | error e => rw [hown] at h; simp at h
    | ok own =>
      rw [hown] at h
      cases hsub : findVariablesInScopes o cs with
      | error e => rw [hsub] at h; simp at h
      | ok sub =>
        rw [hsub] at h
        simp only [Except.ok.injEq] at h
        intro d hd
        rw [← h] at hd
        rcases List.mem_append.mp hd with hmem | hmem
        · obtain ⟨r, hrm, hcr⟩ := checkReferences_mem o refs own hown d hmem
          exact ⟨Scope.mk refs cs,
            by rw [scopesReached]; exact List.mem_cons_self _ _,
            r, hrm, hcr⟩
        · obtain ⟨t, htm, r, hrm, hcr⟩ :=
            findVariablesInScopes_mem o cs sub hsub d hmem
          exact ⟨t,
            by rw [scopesReached]; exact List.mem_cons_of_mem _ htm,
            r, hrm, hcr⟩

theorem findVariablesInScopes_mem (o : Options) (l : List Scope)
    (ds : List Diagnostic) (h : findVariablesInScopes o l = .ok ds) :
    ∀ d ∈ ds, ∃ t ∈ scopesReachedL l, ∃ r ∈ t.references,
      checkReference o r = .ok (some d) := by
  match l with
  | [] =>
    intro d hd
    rw [findVariablesInScopes] at h
    have : ([] : List Diagnostic) = ds := by simpa using h
    rw [← this] at hd
    simp at hd
  | s :: rest =>
    rw [findVariablesInScopes] at h
    cases ha : findVariablesInScope o s with
    | error e => rw [ha] at h; simp at h
    | ok a =>
      rw [ha] at h
      cases hb : findVariablesInScopes o rest with
      | error e => rw [hb] at h; simp at h
      | ok b =>
        rw [hb] at h
        simp only [Except.ok.injEq] at h
        intro d hd
        rw [← h] at hd
        rcases List.mem_append.mp hd with hmem | hmem
        · obtain ⟨t, htm, r, hrm, hcr⟩ :=
            findVariablesInScope_mem o s a ha d hmem
          exact ⟨t,
            by rw [scopesReachedL]; exact List.mem_append_left _ htm,
            r, hrm, hcr⟩
        · obtain ⟨t, htm, r, hrm, hcr⟩ :=
            findVariablesInScopes_mem o rest b hb d hmem
          exact ⟨t,
            by rw [scopesReachedL]; exact List.mem_append_right _ htm,
            r, hrm, hcr⟩

end

/-- C7 (amended): every diagnostic emitted by the walk comes from a
reference of a reached scope and has `node` equal to that reference's
identifier node, `message` equal to the raw template whose `{{name}}`
placeholder is filled from the data's `name` property (equal to the
identifier's name), and `data` equal to **the whole identifier node itself**
(not the record holding only a `name` field, as the claim states); the walk
computes nothing but this diagnostic list. -/
theorem diagnostics_shape (o : Options) (s : Scope) (ds : List Diagnostic)
    (h : findVariablesInScope o s = .ok ds) :
    ∀ d ∈ ds, ∃ t ∈ scopesReached s, ∃ r ∈ t.references,
      checkReference o r = .ok (some d) ∧
      d.node = r.identifier ∧
      d.message = messageTemplate ∧
      d.data = r.identifier ∧
      d.data.name = r.identifier.name := by
  intro d hd
  obtain ⟨t, htm, r, hrm, hcr⟩ := findVariablesInScope_mem o s ds h d hd
  have hshape := (checkReference_spec o r (some d) hcr).1 d rfl
  subst hshape
  exact ⟨t, htm, r, hrm, hcr, rfl, rfl, rfl, rfl⟩

theorem diagnostics_shape_witness :
    ∃ t ∈ scopesReached exScope, ∃ r ∈ t.references,
      checkReference exAll r = .ok (some (reportFor exRefX)) ∧
      (reportFor exRefX).node = r.identifier ∧
      (reportFor exRefX).message = messageTemplate ∧
      (reportFor exRefX).data = r.identifier ∧
      (reportFor exRefX).data.name = r.identifier.name :=
  diagnostics_shape exAll exScope [reportFor exRefX] (by rfl)
    (reportFor exRefX) (List.mem_singleton.mpr rfl)

/-- C7 counterexample: on a concrete walk the emitted diagnostic's `data`
object is the identifier node, whose property map differs from the record
`{ name: identifier name }`: reading `range` off the data yields the
identifier's range, while the claimed record has no such property. -/
theorem data_not_name_record :
    findVariablesInScope exAll exScope = .ok [reportFor exRefX] ∧
    ¬ (∀ k, (reportFor exRefX).data.prop k =
        nameOnlyRecord (reportFor exRefX).node.name k) :=
  ⟨by rfl, fun hall => absurd (hall "range") (by decide)⟩

end NUBD
